import Mathlib

/-!
# hakrevdns: bulk reverse-DNS lookups (main.go)

A shallow embedding of `main.go`: the option structure `opts`, the resolver-set
builder `getResolvers`, the worker loop `doWork`, and the reader / worker-pool
start-up of `main`.

Go strings are embedded as Lean strings (valid UTF-8).  The name resolution
itself (`(*net.Resolver).LookupAddr`) is a capability outside the program and
is a parameter of the embedding.
-/

namespace Hakrevdns

/-! ## Fragments of the Go standard library called by main.go -/

/-- Splitting of a character list at every occurrence of `sep`: the entries
between the separators, empty entries included. -/
def splitChars (sep : Char) : List Char → List (List Char)
  | [] => [[]]
  | c :: cs =>
    if c = sep then [] :: splitChars sep cs
    else
      match splitChars sep cs with
      | [] => [[c]]
      | e :: es => (c :: e) :: es

/-- Go `strings.Split(s, sep)` for a one-byte separator (main.go calls it with
`","`): all substrings of `s` between separators; `Count(s, sep) + 1` entries. -/
def Split (s : String) (sep : Char) : List String :=
  (splitChars sep s.data).map String.mk

/-- Go `strings.Join(elems, sep)`. -/
def Join : List String → String → String
  | [], _ => ""
  | [a], _ => a
  | a :: b :: rest, sep => a ++ sep ++ Join (b :: rest) sep

/-- Go `strings.TrimRight(s, cutset)`: `s` with all trailing code points that
occur in `cutset` removed. -/
def TrimRight (s cutset : String) : String :=
  String.mk (s.data.rdropWhile (fun c => cutset.data.contains c))

/-- Go `fmt.Sprintf("%s:%d", s, d)` for a string and an unsigned integer. -/
def Sprintf_s_d (s : String) (d : Nat) : String :=
  s ++ ":" ++ Nat.repr d

/-- Go `fmt.Println(a...)` for string operands, as the text it writes: the
operands with a space between every two of them, and a newline appended. -/
def Println (a : List String) : String :=
  Join a " " ++ "\n"

/-- Go `bufio.MaxScanTokenSize`: the size of the largest buffer a scanner
without a call of `Buffer` allocates. -/
def MaxScanTokenSize : Nat := 64 * 1024

/-- Go `dropCR` of `bufio.ScanLines`: the data without one trailing carriage
return. -/
def dropCR (data : String) : String :=
  if data.data.getLast? = some '\r' then String.mk data.data.dropLast else data

/-! ## Data model -/

/-- The option structure `opts` of main.go (lines 14-21), filled by the flag
parser before any worker starts and never written afterwards.  `Port` is a
`uint16`; it is only ever formatted. -/
structure Opts where
  Threads : Int
  ResolverIP : String
  ResolverIPs : String
  Protocol : String
  Port : Nat
  Domain : Bool
  deriving DecidableEq, Repr

/-- The two function literals that main.go stores in `net.Resolver.Dial`,
each with what it captures.  `resolverIP` is the literal of lines 57-60 (it
reads only the global `opts`); `listEntry ip` is the literal of lines 68-71,
where `ip` is the value its captured loop variable holds when it is called. -/
inductive DialFunc where
  | resolverIP
  | listEntry (ip : String)
  deriving DecidableEq, Repr

/-- The fields of `net.Resolver` that main.go sets. -/
structure Resolver where
  PreferGo : Bool
  Dial : Option DialFunc
  deriving DecidableEq, Repr

/-- A resolver handle `*net.Resolver`; `none` is the nil pointer, which the
`net` package treats as the platform default resolver. -/
abbrev Handle := Option Resolver

/-- Calling a `Dial` function literal: the `(network, address)` pair it
passes to `d.DialContext`. -/
def DialFunc.call (opts : Opts) : DialFunc → String × String
  | .resolverIP => (opts.Protocol, Sprintf_s_d opts.ResolverIP opts.Port)
  | .listEntry ip => (opts.Protocol, Sprintf_s_d ip opts.Port)

/-- Where a handle connects when it is used: `none` for a handle without a
custom dial function (the nil handle), else the `(network, address)` pair
its `Dial` passes to the dialer. -/
def dialTarget (opts : Opts) : Handle → Option (String × String)
  | none => none
  | some r => r.Dial.map (DialFunc.call opts)

/-- Scope of the variable of a `for ... range` statement, which depends on the
language version selected by the `go` directive of the module file (not part
of main.go): with a directive of 1.22 or later each iteration has its own
variable; with an earlier one, or none, all iterations share one variable,
and a function literal called after the loop reads the value of the last
iteration. -/
inductive LoopVar where
  | perIteration
  | perLoop
  deriving DecidableEq, Repr

/-- The value that the function literal created for entry `ip` of the loop
over `ips` (main.go line 65) finds in its captured variable when called after
the loop. -/
def captured (lv : LoopVar) (ips : List String) (ip : String) : String :=
  match lv with
  | .perIteration => ip
  | .perLoop => ips.getLastD ip

/-! ## getResolvers (main.go lines 50-83) -/

/-- The resolver handle built for `opts.ResolverIP` (lines 55-61). -/
def singleResolver : Handle :=
  some { PreferGo := true, Dial := some DialFunc.resolverIP }

/-- The resolver handle built inside the loop over the list (lines 66-72). -/
def entryResolver (lv : LoopVar) (ips : List String) (ip : String) : Handle :=
  some { PreferGo := true, Dial := some (DialFunc.listEntry (captured lv ips ip)) }

/-- Embedding of `getResolvers`.  `rr.1` is the local `r`, `rr.2` the slice
`resolvers` after the `if / else if` statement. -/
def getResolvers (lv : LoopVar) (opts : Opts) : List Handle :=
  let rr : Handle × List Handle :=
    if opts.ResolverIP ≠ "" then
      (singleResolver, [])
    else if opts.ResolverIPs ≠ "" then
      let ips := Split opts.ResolverIPs ','
      (none, ips.foldl (fun resolvers ip => resolvers ++ [entryResolver lv ips ip]) [])
    else
      (none, [])
  if rr.2.length = 0 then rr.2 ++ [rr.1] else rr.2

/-! ## doWork (main.go lines 85-105) -/

/-- What `LookupAddr` returns: `(addr, err)` with `err != nil` is `error`
(the worker never looks at `addr` then), else `ok addr`. -/
inductive LookupResult where
  | error (err : String)
  | ok (addr : List String)
  deriving DecidableEq, Repr

/-- One observable action of a worker, in program order: a call of
`r.LookupAddr(context.Background(), ip)` with what it returned, or a call of
`fmt.Println` with the text it writes to standard output. -/
inductive Event where
  | lookupAddr (r : Handle) (ip : String) (res : LookupResult)
  | println (text : String)
  deriving DecidableEq, Repr

/-- The reverse-lookup capability `(*net.Resolver).LookupAddr`: from the state
`W` of the world outside the program, the handle and the address, the result
and the next state of the world. -/
abbrev Lookup (W : Type) := W → Handle → String → W × LookupResult

/-- Body of `for _, a := range addr` (lines 96-102); `out` is what the
worker has done so far. -/
def nameStep (opts : Opts) (ip : String) (out : List Event) (a : String) : List Event :=
  if opts.Domain then
    out ++ [Event.println (Println [TrimRight a "."])]
  else
    out ++ [Event.println (Println [ip, "\t", TrimRight a "."])]

/-- Body of `for _, r := range resolvers` (lines 90-103). -/
def resolverStep {W : Type} (opts : Opts) (LookupAddr : Lookup W) (ip : String)
    (st : W × List Event) (r : Handle) : W × List Event :=
  match LookupAddr st.1 r ip with
  | (w, LookupResult.error e) => (w, st.2 ++ [Event.lookupAddr r ip (LookupResult.error e)])
  | (w, LookupResult.ok addr) =>
    (w, addr.foldl (nameStep opts ip) (st.2 ++ [Event.lookupAddr r ip (LookupResult.ok addr)]))

/-- Body of `for ip := range work` (lines 89-104): one work item. -/
def itemStep {W : Type} (opts : Opts) (LookupAddr : Lookup W) (resolvers : List Handle)
    (st : W × List Event) (ip : String) : W × List Event :=
  resolvers.foldl (resolverStep opts LookupAddr ip) st

/-- Embedding of `doWork` for one worker: `work` is the sequence of values
this worker receives from the channel until it is closed, `w` the state of
the world when the worker starts.  Result: the final state of the world and
the worker's actions in order. -/
def doWork {W : Type} (lv : LoopVar) (opts : Opts) (LookupAddr : Lookup W)
    (work : List String) (w : W) : W × List Event :=
  let resolvers := getResolvers lv opts
  work.foldl (itemStep opts LookupAddr resolvers) (w, [])

/-- The lookups of a trace, in order: handle and address of each call. -/
def lookups : List Event → List (Handle × String)
  | [] => []
  | Event.lookupAddr r ip _ :: t => (r, ip) :: lookups t
  | Event.println _ :: t => lookups t

/-- The texts written by a trace, in order, one per `Println` call. -/
def printed : List Event → List String
  | [] => []
  | Event.lookupAddr _ _ _ :: t => printed t
  | Event.println s :: t => s :: printed t

/-- Standard output of a trace: the written texts one after the other. -/
def stdout (t : List Event) : String :=
  String.join (printed t)

/-! ## main (main.go lines 23-48): reader, worker pool, wait group -/

/-- Control point of the reader goroutine (lines 33-39).  Standard input is
the sequence of its lines, each the bytes between two newlines (a line holds
no newline, and may end in a carriage return), as far as they are read: the
scanner treats a read error like the end of the input. -/
inductive Reader where
  /-- at `s.Scan()`, with the lines of standard input not yet scanned -/
  | scanning (rest : List String)
  /-- blocked in `work <- s.Text()` until a worker receives; `text` is the
  token of the scanner -/
  | sending (text : String) (rest : List String)
  /-- after `close(work)` -/
  | closed
  deriving DecidableEq, Repr

/-- Control point of a worker goroutine `doWork`. -/
inductive WorkerPc where
  /-- at the receive of `for ip := range work` -/
  | receiving
  /-- inside the loop body, processing `ip` -/
  | busy (ip : String)
  /-- returned; the deferred `wg.Done()` has run -/
  | done
  deriving DecidableEq, Repr

/-- Control point of the main goroutine. -/
inductive MainPc where
  /-- at the test `i < numWorkers` of the loop of lines 43-46 -/
  | spawning (i : Nat)
  /-- in `wg.Wait()` -/
  | waiting
  /-- returned from `main`: the process has ended -/
  | exited
  deriving DecidableEq, Repr

/-- State of the running process. -/
structure Sys where
  main : MainPc
  reader : Reader
  /-- the started workers, in start order -/
  workers : List WorkerPc
  /-- counter of the wait group -/
  wg : Int
  /-- every receive from the channel so far, oldest first: the index of the
  receiving worker and the value received -/
  received : List (Nat × String)
  deriving DecidableEq, Repr

/-- The goroutine that takes the next step. -/
inductive Action where
  /-- the main goroutine -/
  | main
  /-- the reader goroutine, except for completing a send -/
  | reader
  /-- the blocked send of the reader meets the receive of worker `j` -/
  | handoff (j : Nat)
  /-- worker `j`, except for receiving a value -/
  | worker (j : Nat)
  deriving DecidableEq, Repr

/-- State after line 39, before the loop of line 43: the reader goroutine has
been started on the lines `input` of standard input, no worker exists. -/
def Sys.init (input : List String) : Sys :=
  { main := MainPc.spawning 0, reader := Reader.scanning input, workers := [],
    wg := 0, received := [] }

/-- One step of the process, where `numWorkers` is the value of
`opts.Threads` (line 30); `none` when the chosen goroutine cannot move (it is
blocked, has returned, or the process has ended).  A send on the unbuffered
channel `work` completes only together with one receive (`handoff`); a worker
leaves its `range` loop only once the channel is closed.  `s.Scan()` with
the split function `ScanLines` and the default buffer yields the next line
without its trailing carriage return when the line with its newline fits the
buffer of `MaxScanTokenSize` bytes; on a longer line it returns false
(`ErrTooLong`), as it does at the end of the input, and the reader closes the
channel. -/
def Sys.step (numWorkers : Int) (s : Sys) : Action → Option Sys
  | Action.main =>
    match s.main with
    | MainPc.spawning i =>
      if (i : Int) < numWorkers then
        some { s with main := MainPc.spawning (i + 1), wg := s.wg + 1,
                      workers := s.workers ++ [WorkerPc.receiving] }
      else some { s with main := MainPc.waiting }
    | MainPc.waiting => if s.wg = 0 then some { s with main := MainPc.exited } else none
    | MainPc.exited => none
  | Action.reader =>
    if s.main = MainPc.exited then none else
    match s.reader with
    | Reader.scanning (line :: rest) =>
      if line.utf8ByteSize < MaxScanTokenSize then
        some { s with reader := Reader.sending (dropCR line) rest }
      else some { s with reader := Reader.closed }
    | Reader.scanning [] => some { s with reader := Reader.closed }
    | Reader.sending _ _ => none
    | Reader.closed => none
  | Action.handoff j =>
    if s.main = MainPc.exited then none else
    match s.reader, s.workers[j]? with
    | Reader.sending line rest, some WorkerPc.receiving =>
      some { s with reader := Reader.scanning rest,
                    workers := s.workers.set j (WorkerPc.busy line),
                    received := s.received ++ [(j, line)] }
    | _, _ => none
  | Action.worker j =>
    if s.main = MainPc.exited then none else
    match s.workers[j]? with
    | some (WorkerPc.busy _) => some { s with workers := s.workers.set j WorkerPc.receiving }
    | some WorkerPc.receiving =>
      if s.reader = Reader.closed then
        some { s with workers := s.workers.set j WorkerPc.done, wg := s.wg - 1 }
      else none
    | _ => none

/-- Running a schedule: the steps are taken in the order given; `none` when
one of them is not possible. -/
def Sys.run (numWorkers : Int) (s : Sys) : List Action → Option Sys
  | [] => some s
  | a :: rest =>
    match s.step numWorkers a with
    | none => none
    | some s' => Sys.run numWorkers s' rest

/-! ## Vocabulary of the statements -/

/-- The text the body of the loop over the names writes for name `a` of
address `ip`: the `Println` call of line 98 in domain-only mode, that of
line 100 otherwise. -/
def outputLine (opts : Opts) (ip a : String) : String :=
  if opts.Domain then Println [TrimRight a "."] else Println [ip, "\t", TrimRight a "."]

/-- The texts written for one lookup of address `ip` that returned `res`. -/
def linesOf (opts : Opts) (ip : String) : LookupResult → List String
  | LookupResult.error _ => []
  | LookupResult.ok addr => addr.map (outputLine opts ip)

/-- The answered lookups of a trace, in order: the address and the result. -/
def answers : List Event → List (String × LookupResult)
  | [] => []
  | Event.lookupAddr _ ip res :: t => (ip, res) :: answers t
  | Event.println _ :: t => answers t

/-- The results of the calls of `LookupAddr` for address `ip` against the
resolvers in order, the first call made in world `w`, each later one in the
world the call before it left. -/
def lookupAll {W : Type} (LookupAddr : Lookup W) (ip : String) : W → List Handle → List LookupResult
  | _, [] => []
  | w, r :: rs => (LookupAddr w r ip).2 :: lookupAll LookupAddr ip (LookupAddr w r ip).1 rs

/-- The world after the calls of `LookupAddr` for address `ip` against the
resolvers in order, starting in world `w`. -/
def worldAfter {W : Type} (LookupAddr : Lookup W) (ip : String) : W → List Handle → W
  | w, [] => w
  | w, r :: rs => worldAfter LookupAddr ip (LookupAddr w r ip).1 rs

/-- What a worker has to do for the items `work`, starting in world `w`: for
every item in order and, for that item, every resolver in order, the call of
`LookupAddr` in the world left by the call before it, followed by one
`Println` for every line of its result. -/
def workTrace {W : Type} (opts : Opts) (LookupAddr : Lookup W) (resolvers : List Handle) :
    W → List String → List Event
  | _, [] => []
  | w, ip :: rest =>
    (resolvers.zip (lookupAll LookupAddr ip w resolvers)).flatMap
        (fun p => Event.lookupAddr p.1 ip p.2 :: (linesOf opts ip p.2).map Event.println)
      ++ workTrace opts LookupAddr resolvers (worldAfter LookupAddr ip w resolvers) rest

/-- The world after the lookups for all the items `work`. -/
def workWorld {W : Type} (LookupAddr : Lookup W) (resolvers : List Handle) :
    W → List String → W
  | w, [] => w
  | w, ip :: rest =>
    workWorld LookupAddr resolvers (worldAfter LookupAddr ip w resolvers) rest

/-- What `LookupAddr` returns for the items `work`, starting in world `w`: for
every item in order and every resolver in order, the address and the result
of the call made in the world left by the call before it. -/
def workAnswers {W : Type} (LookupAddr : Lookup W) (resolvers : List Handle) :
    W → List String → List (String × LookupResult)
  | _, [] => []
  | w, ip :: rest =>
    (lookupAll LookupAddr ip w resolvers).map (fun res => (ip, res))
      ++ workAnswers LookupAddr resolvers (worldAfter LookupAddr ip w resolvers) rest

/-- Options used in examples: the defaults of the flag parser (8 threads,
udp, port 53) with the given resolver address and list. -/
def exampleOpts (resolver resolvers : String) : Opts :=
  { Threads := 8, ResolverIP := resolver, ResolverIPs := resolvers,
    Protocol := "udp", Port := 53, Domain := false }

/-- Options of the example resolvers="1.1.1.1,8.8.8.8", port 5353, protocol
tcp. -/
def exampleListOpts : Opts :=
  { Threads := 8, ResolverIP := "", ResolverIPs := "1.1.1.1,8.8.8.8", Protocol := "tcp",
    Port := 5353, Domain := false }

/-- A lookup capability for examples: every resolver answers every address
with the names `addr`. -/
def constLookup (addr : List String) : Lookup Unit :=
  fun w _ _ => (w, LookupResult.ok addr)

/-- A lookup capability for examples over two resolvers: the world counts the
calls; calls number 0, 2, 4, ... fail, the others return `addr`. -/
def flakyLookup (addr : List String) : Lookup Nat :=
  fun n _ _ => (n + 1, if n % 2 = 0 then LookupResult.error "timeout" else LookupResult.ok addr)

/-- The tokens the scanner yields on the lines `input`: the lines up to the
first one that does not fit the buffer, each without its trailing carriage
return. -/
def scanned (input : List String) : List String :=
  (input.takeWhile (fun line => decide (line.utf8ByteSize < MaxScanTokenSize))).map dropCR

/-- The tokens that the reader has still to hand to a worker. -/
def Reader.pending : Reader → List String
  | Reader.scanning rest => scanned rest
  | Reader.sending text rest => text :: scanned rest
  | Reader.closed => []

/-- A line of 65536 bytes, one more than fits the buffer of the scanner
together with its newline. -/
def longLine : String :=
  String.mk (List.replicate 65536 'a')

/-- What holds in every state the process can reach from `Sys.init input`. -/
structure Sys.Inv (numWorkers : Int) (input : List String) (s : Sys) : Prop where
  /-- the received values, in order, then the pending tokens, are the tokens
  of the input -/
  log : s.received.map Prod.snd ++ s.reader.pending = scanned input
  /-- the wait group counts the workers that have not returned -/
  wg : s.wg = ((s.workers.countP (fun p => p != WorkerPc.done) : Nat) : Int)
  /-- only started workers receive -/
  idx : ∀ e ∈ s.received, e.1 < s.workers.length
  /-- a worker returns only after the channel is closed -/
  closed : WorkerPc.done ∈ s.workers → s.reader = Reader.closed
  /-- the loop of main starts one worker per iteration -/
  spawning : ∀ i, s.main = MainPc.spawning i → s.workers.length = i
  /-- main leaves the loop only when `i < numWorkers` fails -/
  spawned : s.main ≠ MainPc.spawning s.workers.length → numWorkers ≤ s.workers.length
  /-- no more workers are started than requested -/
  bound : ∀ j, j < s.workers.length → (j : Int) < numWorkers
  /-- main returns only when the wait group is at zero -/
  exited : s.main = MainPc.exited → s.wg = 0

/-- A schedule that runs the process to completion with `n` workers: main
starts the workers and waits, worker 0 takes every token, the reader closes
the channel, the workers return, main returns. -/
def fullSchedule (n : Nat) (input : List String) : List Action :=
  List.replicate n Action.main ++ ([Action.main] ++
    (((scanned input).flatMap (fun _ => [Action.reader, Action.handoff 0, Action.worker 0])
        ++ [Action.reader]) ++
      ((List.range' 0 n).map Action.worker ++ [Action.main])))

/-! ## Lemmas on the library fragments -/

theorem foldl_append_singleton {α β : Type} (f : α → β) (l : List α) (init : List β) :
    l.foldl (fun acc x => acc ++ [f x]) init = init ++ l.map f := by
  induction l generalizing init with
  | nil => simp
  | cons x xs ih => simp [ih]

theorem splitChars_ne_nil (sep : Char) (l : List Char) : splitChars sep l ≠ [] := by
  cases l with
  | nil => simp [splitChars]
  | cons c cs =>
    unfold splitChars
    split
    · simp
    · split <;> simp

theorem splitChars_length (sep : Char) (l : List Char) :
    (splitChars sep l).length = l.count sep + 1 := by
  induction l with
  | nil => simp [splitChars]
  | cons c cs ih =>
    unfold splitChars
    by_cases h : c = sep
    · subst h
      simp [ih]
    · have hne : (c == sep) = false := by simpa using h
      rw [if_neg h, List.count_cons, hne]
      cases hs : splitChars sep cs with
      | nil => exact absurd hs (splitChars_ne_nil sep cs)
      | cons e es => simp [← ih, hs]

theorem splitChars_not_mem (sep : Char) (l : List Char) :
    ∀ e ∈ splitChars sep l, sep ∉ e := by
  induction l with
  | nil => simp [splitChars]
  | cons c cs ih =>
    unfold splitChars
    by_cases h : c = sep
    · rw [if_pos h]
      intro e he
      rcases List.mem_cons.1 he with rfl | he
      · simp
      · exact ih e he
    · rw [if_neg h]
      cases hs : splitChars sep cs with
      | nil => exact absurd hs (splitChars_ne_nil sep cs)
      | cons e es =>
        rw [hs] at ih
        intro x hx
        rcases List.mem_cons.1 hx with rfl | hx
        · intro hmem
          rcases List.mem_cons.1 hmem with h' | h'
          · exact h h'.symm
          · exact ih e (List.mem_cons_self _ _) h'
        · exact ih x (List.mem_cons_of_mem _ hx)

theorem Join_cons_char (c : Char) (e : List Char) (rest : List String) (sep : String) :
    Join (String.mk (c :: e) :: rest) sep = String.mk [c] ++ Join (String.mk e :: rest) sep := by
  cases rest with
  | nil => simp [Join]; rfl
  | cons b bs =>
    simp only [Join]
    apply String.ext
    simp [String.data_append]

theorem Join_splitChars (sep : Char) (l : List Char) :
    Join ((splitChars sep l).map String.mk) (String.mk [sep]) = String.mk l := by
  induction l with
  | nil => simp [splitChars, Join]
  | cons c cs ih =>
    unfold splitChars
    by_cases h : c = sep
    · subst h
      rw [if_pos rfl]
      cases hs : splitChars c cs with
      | nil => exact absurd hs (splitChars_ne_nil c cs)
      | cons e es =>
        rw [hs] at ih
        simp only [List.map_cons, Join] at ih ⊢
        rw [ih]
        apply String.ext
        simp [String.data_append]
    · rw [if_neg h]
      cases hs : splitChars sep cs with
      | nil => exact absurd hs (splitChars_ne_nil sep cs)
      | cons e es =>
        rw [hs] at ih
        simp only [List.map_cons] at ih ⊢
        rw [Join_cons_char, ih]
        apply String.ext
        simp [String.data_append]

theorem Split_ne_nil (s : String) (sep : Char) : Split s sep ≠ [] := by
  simp [Split, splitChars_ne_nil]

/-! ## Lemmas on getResolvers -/

theorem getResolvers_of_resolverIP (lv : LoopVar) (opts : Opts) (h : opts.ResolverIP ≠ "") :
    getResolvers lv opts = [singleResolver] := by
  simp [getResolvers, h]

theorem getResolvers_of_list (lv : LoopVar) (opts : Opts) (h1 : opts.ResolverIP = "")
    (h2 : opts.ResolverIPs ≠ "") :
    getResolvers lv opts
      = (Split opts.ResolverIPs ',').map (entryResolver lv (Split opts.ResolverIPs ',')) := by
  have hne := Split_ne_nil opts.ResolverIPs ','
  simp only [getResolvers, h1, h2, ne_eq, not_true_eq_false, not_false_eq_true, if_true, if_false]
  rw [foldl_append_singleton]
  simp [hne]

theorem getResolvers_of_none (lv : LoopVar) (opts : Opts) (h1 : opts.ResolverIP = "")
    (h2 : opts.ResolverIPs = "") : getResolvers lv opts = [none] := by
  simp [getResolvers, h1, h2]

/-! ## The resolver set -/

/-- C7: when the single resolver address is non-empty, getResolvers returns
exactly one handle, and that handle dials `ResolverIP:Port` over the
configured protocol. -/
theorem getResolvers_single (lv : LoopVar) (opts : Opts) (h : opts.ResolverIP ≠ "") :
    (getResolvers lv opts).length = 1 ∧
    (getResolvers lv opts).map (dialTarget opts)
      = [some (opts.Protocol, opts.ResolverIP ++ ":" ++ Nat.repr opts.Port)] := by
  rw [getResolvers_of_resolverIP lv opts h]
  exact ⟨rfl, rfl⟩

/-- C7 at resolver="1.1.1.1" with the default port and protocol: one handle
for 1.1.1.1:53 over udp. -/
theorem getResolvers_single_witness :
    (getResolvers LoopVar.perIteration (exampleOpts "1.1.1.1" "")).length = 1 ∧
    (getResolvers LoopVar.perIteration (exampleOpts "1.1.1.1" "")).map
        (dialTarget (exampleOpts "1.1.1.1" ""))
      = [some ("udp", "1.1.1.1:53")] :=
  getResolvers_single LoopVar.perIteration (exampleOpts "1.1.1.1" "") (by decide)

/-- C8: when the single resolver address and the resolver list are both
empty, getResolvers returns exactly one handle, the nil handle (no custom
dial function: the platform default resolver), whatever the port, the
protocol and the other options are. -/
theorem getResolvers_default (lv : LoopVar) (opts : Opts)
    (h1 : opts.ResolverIP = "") (h2 : opts.ResolverIPs = "") :
    getResolvers lv opts = [none] ∧
    (getResolvers lv opts).map (dialTarget opts) = [none] ∧
    ∀ (lv' : LoopVar) (opts' : Opts), opts'.ResolverIP = "" → opts'.ResolverIPs = "" →
      getResolvers lv' opts' = getResolvers lv opts := by
  refine ⟨getResolvers_of_none lv opts h1 h2, ?_, ?_⟩
  · rw [getResolvers_of_none lv opts h1 h2]; rfl
  · intro lv' opts' h1' h2'
    rw [getResolvers_of_none lv opts h1 h2, getResolvers_of_none lv' opts' h1' h2']

/-- C8 at the default options, compared with port 5353 over tcp: the same
single nil handle. -/
theorem getResolvers_default_witness :
    getResolvers LoopVar.perIteration (exampleOpts "" "") = [none] ∧
    getResolvers LoopVar.perIteration
        { Threads := 8, ResolverIP := "", ResolverIPs := "", Protocol := "tcp", Port := 5353,
          Domain := false }
      = getResolvers LoopVar.perIteration (exampleOpts "" "") :=
  ⟨(getResolvers_default LoopVar.perIteration (exampleOpts "" "") rfl rfl).1,
   (getResolvers_default LoopVar.perIteration (exampleOpts "" "") rfl rfl).2.2 _ _ rfl rfl⟩

/-- C2 as stated fails: with resolver="9.9.9.9" and resolvers="1.1.1.1,8.8.8.8"
both set, the list has two entries but getResolvers returns one handle, which
dials the single resolver address 9.9.9.9:53, not a list entry. -/
theorem getResolvers_both_counterexample :
    (exampleOpts "9.9.9.9" "1.1.1.1,8.8.8.8").ResolverIP ≠ "" ∧
    (exampleOpts "9.9.9.9" "1.1.1.1,8.8.8.8").ResolverIPs ≠ "" ∧
    (Split (exampleOpts "9.9.9.9" "1.1.1.1,8.8.8.8").ResolverIPs ',').length = 2 ∧
    (getResolvers LoopVar.perIteration (exampleOpts "9.9.9.9" "1.1.1.1,8.8.8.8")).length = 1 ∧
    (getResolvers LoopVar.perIteration (exampleOpts "9.9.9.9" "1.1.1.1,8.8.8.8")).map
        (dialTarget (exampleOpts "9.9.9.9" "1.1.1.1,8.8.8.8"))
      = [some ("udp", "9.9.9.9:53")] ∧
    (getResolvers LoopVar.perIteration (exampleOpts "9.9.9.9" "1.1.1.1,8.8.8.8")).map
        (dialTarget (exampleOpts "9.9.9.9" "1.1.1.1,8.8.8.8"))
      ≠ (Split (exampleOpts "9.9.9.9" "1.1.1.1,8.8.8.8").ResolverIPs ',').map
          (fun e => some ("udp", e ++ ":53")) := by
  decide

/-- C2, amended: when the single resolver address and the resolver list are
both non-empty, getResolvers favours the single address: it returns exactly
one handle, which dials `ResolverIP:Port` over the configured protocol, and
the list is ignored (the result is the same for every other list). -/
theorem getResolvers_both (lv : LoopVar) (opts : Opts)
    (h1 : opts.ResolverIP ≠ "") (_h2 : opts.ResolverIPs ≠ "") :
    (getResolvers lv opts).length = 1 ∧
    (getResolvers lv opts).map (dialTarget opts)
      = [some (opts.Protocol, opts.ResolverIP ++ ":" ++ Nat.repr opts.Port)] ∧
    ∀ list : String,
      getResolvers lv { opts with ResolverIPs := list } = getResolvers lv opts := by
  refine ⟨?_, ?_, ?_⟩
  · rw [getResolvers_of_resolverIP lv opts h1]; rfl
  · rw [getResolvers_of_resolverIP lv opts h1]; rfl
  · intro list
    rw [getResolvers_of_resolverIP lv opts h1]
    exact getResolvers_of_resolverIP lv _ h1

/-- C2, amended, at resolver="9.9.9.9" and resolvers="1.1.1.1,8.8.8.8": one
handle, for 9.9.9.9:53 over udp. -/
theorem getResolvers_both_witness :
    (getResolvers LoopVar.perLoop (exampleOpts "9.9.9.9" "1.1.1.1,8.8.8.8")).length = 1 ∧
    (getResolvers LoopVar.perLoop (exampleOpts "9.9.9.9" "1.1.1.1,8.8.8.8")).map
        (dialTarget (exampleOpts "9.9.9.9" "1.1.1.1,8.8.8.8"))
      = [some ("udp", "9.9.9.9:53")] :=
  ⟨(getResolvers_both LoopVar.perLoop (exampleOpts "9.9.9.9" "1.1.1.1,8.8.8.8")
      (by decide) (by decide)).1,
   (getResolvers_both LoopVar.perLoop (exampleOpts "9.9.9.9" "1.1.1.1,8.8.8.8")
      (by decide) (by decide)).2.1⟩

/-- With the loop variable scoped per iteration (a `go` directive of 1.22 or
later), the list branch of getResolvers returns one handle per
comma-separated entry of the list (the entries contain no comma and joined by
commas give the list back), in list order, and the i-th handle dials the i-th
entry at the configured port over the configured protocol. -/
theorem getResolvers_perIteration_entries (opts : Opts)
    (h1 : opts.ResolverIP = "") (h2 : opts.ResolverIPs ≠ "") :
    Join (Split opts.ResolverIPs ',') "," = opts.ResolverIPs ∧
    (∀ e ∈ Split opts.ResolverIPs ',', ',' ∉ e.data) ∧
    (Split opts.ResolverIPs ',').length = opts.ResolverIPs.data.count ',' + 1 ∧
    (getResolvers LoopVar.perIteration opts).length = (Split opts.ResolverIPs ',').length ∧
    (getResolvers LoopVar.perIteration opts).map (dialTarget opts)
      = (Split opts.ResolverIPs ',').map
          (fun e => some (opts.Protocol, e ++ ":" ++ Nat.repr opts.Port)) := by
  refine ⟨?_, ?_, ?_, ?_, ?_⟩
  · exact Join_splitChars ',' opts.ResolverIPs.data
  · intro e he
    simp only [Split, List.mem_map] at he
    obtain ⟨l, hl, rfl⟩ := he
    exact splitChars_not_mem ',' _ l hl
  · simp [Split, splitChars_length]
  · rw [getResolvers_of_list _ opts h1 h2]
    simp
  · rw [getResolvers_of_list _ opts h1 h2, List.map_map]
    rfl

/-- With the loop variable shared by all iterations (no `go` directive of
1.22 or later) the handles of the list branch are as many, but every one of
them dials the last entry. -/
theorem getResolvers_perLoop_last (opts : Opts)
    (h1 : opts.ResolverIP = "") (h2 : opts.ResolverIPs ≠ "") :
    (getResolvers LoopVar.perLoop opts).map (dialTarget opts)
      = (Split opts.ResolverIPs ',').map
          (fun e => some (opts.Protocol,
            (Split opts.ResolverIPs ',').getLastD e ++ ":" ++ Nat.repr opts.Port)) := by
  rw [getResolvers_of_list _ opts h1 h2, List.map_map]
  rfl

/-- C3 does not hold of the code as the sources build it (no `go` directive
of 1.22 or later, so the function literals of lines 68-71 all capture the one
variable `ip` of the loop): for resolvers="1.1.1.1,8.8.8.8", port 5353 and
protocol tcp, getResolvers returns two handles, one per entry, but both dial
8.8.8.8:5353 over tcp, and the first does not dial 1.1.1.1:5353. -/
theorem getResolvers_list_shared_variable :
    exampleListOpts.ResolverIP = "" ∧ exampleListOpts.ResolverIPs ≠ "" ∧
    Split exampleListOpts.ResolverIPs ',' = ["1.1.1.1", "8.8.8.8"] ∧
    (getResolvers LoopVar.perLoop exampleListOpts).map (dialTarget exampleListOpts)
      = [some ("tcp", "8.8.8.8:5353"), some ("tcp", "8.8.8.8:5353")] ∧
    (getResolvers LoopVar.perLoop exampleListOpts).map (dialTarget exampleListOpts)
      ≠ [some ("tcp", "1.1.1.1:5353"), some ("tcp", "8.8.8.8:5353")] := by
  decide

/-! ## Lemmas on the worker loop -/

theorem Println_one (a : String) : Println [a] = a ++ "\n" := rfl

theorem Println_three (a b c : String) :
    Println [a, b, c] = a ++ " " ++ b ++ " " ++ c ++ "\n" := by
  simp [Println, Join, String.append_assoc]

theorem nameStep_eq (opts : Opts) (ip : String) (out : List Event) (a : String) :
    nameStep opts ip out a = out ++ [Event.println (outputLine opts ip a)] := by
  unfold nameStep outputLine
  split <;> rfl

theorem foldl_nameStep (opts : Opts) (ip : String) (addr : List String) (out : List Event) :
    addr.foldl (nameStep opts ip) out
      = out ++ addr.map (fun a => Event.println (outputLine opts ip a)) := by
  induction addr generalizing out with
  | nil => simp
  | cons a rest ih => simp [ih, nameStep_eq]

theorem outputLine_normal (opts : Opts) (ip a : String) (h : opts.Domain = false) :
    outputLine opts ip a = ip ++ " " ++ "\t" ++ " " ++ TrimRight a "." ++ "\n" := by
  simp [outputLine, h, Println_three]

theorem outputLine_domain (opts : Opts) (ip a : String) (h : opts.Domain = true) :
    outputLine opts ip a = TrimRight a "." ++ "\n" := by
  simp [outputLine, h, Println_one]

theorem resolverStep_ok {W : Type} (opts : Opts) (L : Lookup W) (ip : String) (w w' : W)
    (out : List Event) (r : Handle) (addr : List String)
    (h : L w r ip = (w', LookupResult.ok addr)) :
    resolverStep opts L ip (w, out) r
      = (w', out ++ Event.lookupAddr r ip (LookupResult.ok addr)
                  :: addr.map (fun a => Event.println (outputLine opts ip a))) := by
  simp [resolverStep, h, foldl_nameStep]

theorem resolverStep_error {W : Type} (opts : Opts) (L : Lookup W) (ip : String) (w w' : W)
    (out : List Event) (r : Handle) (e : String)
    (h : L w r ip = (w', LookupResult.error e)) :
    resolverStep opts L ip (w, out) r
      = (w', out ++ [Event.lookupAddr r ip (LookupResult.error e)]) := by
  simp [resolverStep, h]

/-- The actions of one pass through the loop over the resolvers: the lookup,
then the lines of its result. -/
theorem resolverStep_trace {W : Type} (opts : Opts) (L : Lookup W) (ip : String)
    (st : W × List Event) (r : Handle) :
    (resolverStep opts L ip st r).1 = (L st.1 r ip).1 ∧
    (resolverStep opts L ip st r).2
      = st.2 ++ Event.lookupAddr r ip (L st.1 r ip).2
              :: (linesOf opts ip (L st.1 r ip).2).map Event.println := by
  obtain ⟨w, out⟩ := st
  rcases hL : L w r ip with ⟨w', res⟩
  cases res with
  | error e => simp [resolverStep_error opts L ip w w' out r e hL, linesOf]
  | ok addr => simp [resolverStep_ok opts L ip w w' out r addr hL, linesOf]

theorem lookups_append (s t : List Event) : lookups (s ++ t) = lookups s ++ lookups t := by
  induction s with
  | nil => rfl
  | cons e s ih => cases e <;> simp [lookups, ih]

theorem printed_append (s t : List Event) : printed (s ++ t) = printed s ++ printed t := by
  induction s with
  | nil => rfl
  | cons e s ih => cases e <;> simp [printed, ih]

theorem answers_append (s t : List Event) : answers (s ++ t) = answers s ++ answers t := by
  induction s with
  | nil => rfl
  | cons e s ih => cases e <;> simp [answers, ih]

theorem lookups_println (l : List String) : lookups (l.map Event.println) = [] := by
  induction l with
  | nil => rfl
  | cons a l ih => simpa [lookups] using ih

theorem answers_println (l : List String) : answers (l.map Event.println) = [] := by
  induction l with
  | nil => rfl
  | cons a l ih => simpa [answers] using ih

theorem printed_println (l : List String) : printed (l.map Event.println) = l := by
  induction l with
  | nil => rfl
  | cons a l ih => simpa [printed] using ih

/-- The trace of one work item splits into one block per resolver, in the
order of the resolver set: the lookup, then the lines of its result. -/
theorem itemStep_blocks {W : Type} (opts : Opts) (L : Lookup W) (ip : String)
    (resolvers : List Handle) (st : W × List Event) :
    ∃ rs : List LookupResult, rs.length = resolvers.length ∧
      (itemStep opts L resolvers st ip).2
        = st.2 ++ (resolvers.zip rs).flatMap
            (fun p => Event.lookupAddr p.1 ip p.2 :: (linesOf opts ip p.2).map Event.println) := by
  induction resolvers generalizing st with
  | nil => exact ⟨[], rfl, by simp [itemStep]⟩
  | cons r rest ih =>
    obtain ⟨rs, hlen, htr⟩ := ih (resolverStep opts L ip st r)
    refine ⟨(L st.1 r ip).2 :: rs, by simp [hlen], ?_⟩
    have hstep := (resolverStep_trace opts L ip st r).2
    simp only [itemStep, List.foldl_cons] at htr ⊢
    rw [htr, hstep]
    simp [List.flatMap_cons]

theorem flatMap_block_lookups (opts : Opts) (ip : String) (resolvers : List Handle)
    (rs : List LookupResult) (h : rs.length = resolvers.length) :
    lookups ((resolvers.zip rs).flatMap
        (fun p => Event.lookupAddr p.1 ip p.2 :: (linesOf opts ip p.2).map Event.println))
      = resolvers.map (fun r => (r, ip)) := by
  induction resolvers generalizing rs with
  | nil => simp [lookups]
  | cons r rest ih =>
    cases rs with
    | nil => simp at h
    | cons x xs =>
      have key := ih xs (by simpa using h)
      rw [List.zip_cons_cons, List.flatMap_cons, List.cons_append, lookups, lookups_append,
        lookups_println, key]
      rfl

theorem flatMap_block_answers (opts : Opts) (ip : String) (resolvers : List Handle)
    (rs : List LookupResult) (h : rs.length = resolvers.length) :
    answers ((resolvers.zip rs).flatMap
        (fun p => Event.lookupAddr p.1 ip p.2 :: (linesOf opts ip p.2).map Event.println))
      = rs.map (fun res => (ip, res)) := by
  induction resolvers generalizing rs with
  | nil =>
    cases rs with
    | nil => simp [answers]
    | cons x xs => simp at h
  | cons r rest ih =>
    cases rs with
    | nil => simp at h
    | cons x xs =>
      have key := ih xs (by simpa using h)
      rw [List.zip_cons_cons, List.flatMap_cons, List.cons_append, answers, answers_append,
        answers_println, key]
      rfl

theorem flatMap_block_printed (opts : Opts) (ip : String) (resolvers : List Handle)
    (rs : List LookupResult) (h : rs.length = resolvers.length) :
    printed ((resolvers.zip rs).flatMap
        (fun p => Event.lookupAddr p.1 ip p.2 :: (linesOf opts ip p.2).map Event.println))
      = rs.flatMap (linesOf opts ip) := by
  induction resolvers generalizing rs with
  | nil =>
    cases rs with
    | nil => simp [printed]
    | cons x xs => simp at h
  | cons r rest ih =>
    cases rs with
    | nil => simp at h
    | cons x xs =>
      have key := ih xs (by simpa using h)
      rw [List.zip_cons_cons, List.flatMap_cons, List.cons_append, printed, printed_append,
        printed_println, key]
      rfl

theorem itemStep_fst_snd {W : Type} (opts : Opts) (L : Lookup W) (ip : String)
    (resolvers : List Handle) (st : W × List Event) :
    ∃ rs : List LookupResult, rs.length = resolvers.length ∧
      lookups (itemStep opts L resolvers st ip).2 = lookups st.2 ++ resolvers.map (fun r => (r, ip)) ∧
      answers (itemStep opts L resolvers st ip).2 = answers st.2 ++ rs.map (fun res => (ip, res)) ∧
      printed (itemStep opts L resolvers st ip).2 = printed st.2 ++ rs.flatMap (linesOf opts ip) := by
  obtain ⟨rs, hlen, htr⟩ := itemStep_blocks opts L ip resolvers st
  refine ⟨rs, hlen, ?_, ?_, ?_⟩
  · rw [htr, lookups_append, flatMap_block_lookups opts ip resolvers rs hlen]
  · rw [htr, answers_append, flatMap_block_answers opts ip resolvers rs hlen]
  · rw [htr, printed_append, flatMap_block_printed opts ip resolvers rs hlen]

theorem flatMap_linesOf_map (opts : Opts) (ip : String) (rs : List LookupResult) :
    (rs.map (fun res => (ip, res))).flatMap (fun a => linesOf opts a.1 a.2)
      = rs.flatMap (linesOf opts ip) := by
  induction rs with
  | nil => rfl
  | cons x xs ih => simp [List.flatMap_cons, ih]

theorem flatMap_linesOf_errors (opts : Opts) (ip : String) (rs : List LookupResult)
    (h : ∀ res ∈ rs, ∃ e, res = LookupResult.error e) : rs.flatMap (linesOf opts ip) = [] := by
  induction rs with
  | nil => rfl
  | cons x xs ih =>
    obtain ⟨e, rfl⟩ := h _ (List.mem_cons_self _ _)
    rw [List.flatMap_cons, ih (fun res hres => h res (List.mem_cons_of_mem _ hres))]
    rfl

theorem foldl_itemStep_trace {W : Type} (opts : Opts) (L : Lookup W) (resolvers : List Handle)
    (work : List String) (st : W × List Event) :
    lookups (work.foldl (itemStep opts L resolvers) st).2
        = lookups st.2 ++ work.flatMap (fun ip => resolvers.map (fun r => (r, ip))) ∧
    (answers (work.foldl (itemStep opts L resolvers) st).2).map Prod.fst
        = (answers st.2).map Prod.fst
          ++ work.flatMap (fun ip => List.replicate resolvers.length ip) ∧
    (printed st.2 = (answers st.2).flatMap (fun a => linesOf opts a.1 a.2) →
      printed (work.foldl (itemStep opts L resolvers) st).2
        = (answers (work.foldl (itemStep opts L resolvers) st).2).flatMap
            (fun a => linesOf opts a.1 a.2)) := by
  induction work generalizing st with
  | nil => simp
  | cons ip rest ih =>
    obtain ⟨rs, hlen, hl, ha, hp⟩ := itemStep_fst_snd opts L ip resolvers st
    obtain ⟨ih1, ih2, ih3⟩ := ih (itemStep opts L resolvers st ip)
    simp only [List.foldl_cons]
    refine ⟨?_, ?_, ?_⟩
    · rw [ih1, hl, List.flatMap_cons, List.append_assoc]
    · rw [ih2, ha, List.flatMap_cons, List.map_append, List.append_assoc, List.map_map]
      have : List.map (Prod.fst ∘ fun res => (ip, res)) rs = List.replicate resolvers.length ip := by
        rw [← hlen]
        exact List.eq_replicate_iff.2 ⟨by simp, by simp⟩
      rw [this]
    · intro h0
      apply ih3
      rw [hp, ha, List.flatMap_append, flatMap_linesOf_map, h0]

theorem rdropWhile_replicate (p : Char → Bool) (c : Char) (hp : ∀ x, p x = true → x = c)
    (l : List Char) : ∃ k : Nat, l = l.rdropWhile p ++ List.replicate k c := by
  induction l using List.reverseRecOn with
  | nil => exact ⟨0, by simp⟩
  | append_singleton xs x ih =>
    rw [List.rdropWhile_concat]
    by_cases hx : p x = true
    · obtain ⟨k, hk⟩ := ih
      refine ⟨k + 1, ?_⟩
      rw [if_pos hx, List.replicate_succ', ← List.append_assoc, ← hk, hp x hx]
    · exact ⟨0, by rw [if_neg hx]; simp⟩

theorem rdropWhile_getLast (p : Char → Bool) (c : Char) (hp : p c = true) (l : List Char) :
    (l.rdropWhile p).getLast? ≠ some c := by
  intro h
  have hne : l.rdropWhile p ≠ [] := by
    intro h0
    rw [h0] at h
    simp at h
  have hlast := List.rdropWhile_last_not p l hne
  rw [List.getLast?_eq_getLast _ hne] at h
  rw [Option.some.inj h] at hlast
  exact hlast hp

theorem flatMap_pairs_length {α β : Type} (work : List α) (resolvers : List β) :
    (work.flatMap (fun ip => resolvers.map (fun r => (r, ip)))).length
      = work.length * resolvers.length := by
  induction work with
  | nil => simp
  | cons ip rest ih =>
    rw [List.flatMap_cons, List.length_append, ih, List.length_map, List.length_cons,
      Nat.succ_mul, Nat.add_comm]

theorem lookupAll_length {W : Type} (L : Lookup W) (ip : String) (w : W)
    (resolvers : List Handle) : (lookupAll L ip w resolvers).length = resolvers.length := by
  induction resolvers generalizing w with
  | nil => rfl
  | cons r rest ih => simp [lookupAll, ih]

theorem itemStep_cons {W : Type} (opts : Opts) (L : Lookup W) (ip : String) (r : Handle)
    (rest : List Handle) (w : W) (out : List Event) :
    itemStep opts L (r :: rest) (w, out) ip
      = itemStep opts L rest
          ((L w r ip).1,
            out ++ Event.lookupAddr r ip (L w r ip).2
                     :: (linesOf opts ip (L w r ip).2).map Event.println) ip := by
  obtain ⟨h1, h2⟩ := resolverStep_trace opts L ip (w, out) r
  simp only [itemStep, List.foldl_cons]
  congr 1
  exact Prod.ext h1 h2

theorem itemStep_eq {W : Type} (opts : Opts) (L : Lookup W) (ip : String)
    (resolvers : List Handle) (st : W × List Event) :
    itemStep opts L resolvers st ip
      = (worldAfter L ip st.1 resolvers,
          st.2 ++ (resolvers.zip (lookupAll L ip st.1 resolvers)).flatMap
            (fun p => Event.lookupAddr p.1 ip p.2
                        :: (linesOf opts ip p.2).map Event.println)) := by
  induction resolvers generalizing st with
  | nil => simp [itemStep, worldAfter, lookupAll]
  | cons r rest ih =>
    obtain ⟨w, out⟩ := st
    rw [itemStep_cons, ih]
    simp only [worldAfter, lookupAll, List.zip_cons_cons, List.flatMap_cons, List.append_assoc,
      List.cons_append]

theorem foldl_itemStep_eq {W : Type} (opts : Opts) (L : Lookup W) (resolvers : List Handle)
    (work : List String) (st : W × List Event) :
    work.foldl (itemStep opts L resolvers) st
      = (workWorld L resolvers st.1 work, st.2 ++ workTrace opts L resolvers st.1 work) := by
  induction work generalizing st with
  | nil => simp [workWorld, workTrace]
  | cons ip rest ih =>
    rw [List.foldl_cons, ih, itemStep_eq]
    simp only [workWorld, workTrace, List.append_assoc]

theorem answers_workTrace {W : Type} (opts : Opts) (L : Lookup W) (resolvers : List Handle)
    (work : List String) (w : W) :
    answers (workTrace opts L resolvers w work) = workAnswers L resolvers w work := by
  induction work generalizing w with
  | nil => rfl
  | cons ip rest ih =>
    simp only [workTrace, workAnswers, answers_append]
    rw [flatMap_block_answers opts ip resolvers _ (lookupAll_length L ip w resolvers), ih]

theorem outputLine_eq (opts : Opts) (ip a : String) :
    outputLine opts ip a
      = (if opts.Domain then "" else ip ++ " " ++ "\t" ++ " ") ++ TrimRight a "." ++ "\n" := by
  cases hmode : opts.Domain with
  | true => simp [outputLine_domain opts ip a hmode]
  | false => simp [outputLine_normal opts ip a hmode]

/-! ## The worker loop -/

/-- C1 as stated fails: in normal mode, for address 8.8.8.8 and a lookup that
returns the name dns.google., the worker writes the address, a space, a tab,
a space and the name, not the address and the name separated by a tab alone. -/
theorem doWork_normal_counterexample :
    (exampleOpts "" "").Domain = false ∧
    stdout (doWork LoopVar.perIteration (exampleOpts "" "") (constLookup ["dns.google."])
        ["8.8.8.8"] ()).2 = "8.8.8.8 \t dns.google\n" ∧
    stdout (doWork LoopVar.perIteration (exampleOpts "" "") (constLookup ["dns.google."])
        ["8.8.8.8"] ()).2 ≠ "8.8.8.8\tdns.google\n" := by
  decide

/-- C1, amended: in normal mode, after a successful lookup of address `ip`
the worker writes, for every returned name `a` in order, exactly the line
made of `ip`, one space, one tab, one space, `a` with its trailing dots
stripped, and the line terminator. -/
theorem doWork_normal_line {W : Type} (opts : Opts) (LookupAddr : Lookup W) (ip : String)
    (w w' : W) (out : List Event) (r : Handle) (addr : List String)
    (hmode : opts.Domain = false) (hok : LookupAddr w r ip = (w', LookupResult.ok addr)) :
    resolverStep opts LookupAddr ip (w, out) r
      = (w', out ++ Event.lookupAddr r ip (LookupResult.ok addr)
                  :: addr.map (fun a =>
                      Event.println (ip ++ " " ++ "\t" ++ " " ++ TrimRight a "." ++ "\n"))) := by
  rw [resolverStep_ok opts LookupAddr ip w w' out r addr hok]
  simp only [outputLine_normal opts ip _ hmode]

/-- C1, amended, at address 8.8.8.8 and the returned name dns.google. -/
theorem doWork_normal_line_witness :
    resolverStep (exampleOpts "" "") (constLookup ["dns.google."]) "8.8.8.8" ((), []) none
      = ((), [Event.lookupAddr none "8.8.8.8" (LookupResult.ok ["dns.google."]),
              Event.println "8.8.8.8 \t dns.google\n"]) :=
  doWork_normal_line (exampleOpts "" "") (constLookup ["dns.google."]) "8.8.8.8" () () [] none
    ["dns.google."] rfl rfl

/-- C5: in domain-only mode, after a successful lookup of address `ip` the
worker writes, for every returned name `a` in order, exactly the line made of
`a` with its trailing dots stripped and the line terminator: no address and
no tab are added. -/
theorem doWork_domain_line {W : Type} (opts : Opts) (LookupAddr : Lookup W) (ip : String)
    (w w' : W) (out : List Event) (r : Handle) (addr : List String)
    (hmode : opts.Domain = true) (hok : LookupAddr w r ip = (w', LookupResult.ok addr)) :
    resolverStep opts LookupAddr ip (w, out) r
      = (w', out ++ Event.lookupAddr r ip (LookupResult.ok addr)
                  :: addr.map (fun a => Event.println (TrimRight a "." ++ "\n"))) := by
  rw [resolverStep_ok opts LookupAddr ip w w' out r addr hok]
  simp only [outputLine_domain opts ip _ hmode]

/-- C5 at the input 5.5.5.5 with a resolver returning host.example.com.: the
only line written is host.example.com. -/
theorem doWork_domain_line_witness :
    resolverStep { Threads := 8, ResolverIP := "", ResolverIPs := "", Protocol := "udp",
                   Port := 53, Domain := true }
        (constLookup ["host.example.com."]) "5.5.5.5" ((), []) none
      = ((), [Event.lookupAddr none "5.5.5.5" (LookupResult.ok ["host.example.com."]),
              Event.println "host.example.com\n"]) :=
  doWork_domain_line
    { Threads := 8, ResolverIP := "", ResolverIPs := "", Protocol := "udp", Port := 53,
      Domain := true }
    (constLookup ["host.example.com."]) "5.5.5.5" () () [] none
    ["host.example.com."] rfl rfl

/-- C6: in both output modes, after a successful lookup the worker writes,
for every returned name `a` in order, the line made of a mode-dependent
prefix (empty, or the address with its separator), a name part and the line
terminator, where the name part is `a` with its trailing dots stripped; all
that doWork writes are such lines, for the names `LookupAddr` returns, in
order; and the name part does not end with a dot, is a prefix of `a`, and `a`
is the name part followed by dots only. -/
theorem doWork_name_trimmed {W : Type} (lv : LoopVar) (opts : Opts) (LookupAddr : Lookup W) :
    (∀ (ip : String) (w w' : W) (out : List Event) (r : Handle) (addr : List String),
      LookupAddr w r ip = (w', LookupResult.ok addr) →
      resolverStep opts LookupAddr ip (w, out) r
        = (w', out ++ Event.lookupAddr r ip (LookupResult.ok addr)
                    :: addr.map (fun a => Event.println
                        ((if opts.Domain then "" else ip ++ " " ++ "\t" ++ " ")
                          ++ TrimRight a "." ++ "\n")))) ∧
    (∀ (work : List String) (w : W),
      printed (doWork lv opts LookupAddr work w).2
        = (workAnswers LookupAddr (getResolvers lv opts) w work).flatMap
            (fun p =>
              match p.2 with
              | LookupResult.error _ => []
              | LookupResult.ok addr =>
                addr.map (fun a =>
                  (if opts.Domain then "" else p.1 ++ " " ++ "\t" ++ " ")
                    ++ TrimRight a "." ++ "\n"))) ∧
    (∀ a : String,
      (TrimRight a ".").data.getLast? ≠ some '.' ∧
      (TrimRight a ".").data <+: a.data ∧
      ∃ k : Nat, a = TrimRight a "." ++ String.mk (List.replicate k '.')) := by
  refine ⟨?_, ?_, ?_⟩
  · intro ip w w' out r addr hok
    rw [resolverStep_ok opts LookupAddr ip w w' out r addr hok]
    simp only [outputLine_eq]
  · intro work w
    have hp := (foldl_itemStep_trace opts LookupAddr (getResolvers lv opts) work (w, [])).2.2 rfl
    have htr : (doWork lv opts LookupAddr work w).2
        = workTrace opts LookupAddr (getResolvers lv opts) w work := by
      simp [doWork, foldl_itemStep_eq]
    have hfun : (fun p : String × LookupResult => linesOf opts p.1 p.2)
        = (fun p =>
            match p.2 with
            | LookupResult.error _ => []
            | LookupResult.ok addr =>
              addr.map (fun a =>
                (if opts.Domain then "" else p.1 ++ " " ++ "\t" ++ " ")
                  ++ TrimRight a "." ++ "\n")) := by
      funext p
      obtain ⟨ip, res⟩ := p
      cases res with
      | error e => rfl
      | ok addr =>
        show List.map (outputLine opts ip) addr = _
        exact List.map_congr_left (fun a _ => outputLine_eq opts ip a)
    have hp' : printed (doWork lv opts LookupAddr work w).2
        = (answers (doWork lv opts LookupAddr work w).2).flatMap
            (fun a => linesOf opts a.1 a.2) := hp
    rw [hp', htr, answers_workTrace, hfun]
  · intro a
    obtain ⟨k, hk⟩ := rdropWhile_replicate (fun c => ".".data.contains c) '.'
      (fun x hx => by simpa using hx) a.data
    refine ⟨?_, ?_, k, ?_⟩
    · exact rdropWhile_getLast (fun c => ".".data.contains c) '.' (by decide) a.data
    · exact List.rdropWhile_prefix _ _
    · apply String.ext
      rw [String.data_append]
      exact hk

/-- C6 in normal mode at address 1.1.1.1 and the returned name
one.one.one.one.. with two trailing dots: the name part written is
one.one.one.one. -/
theorem doWork_name_trimmed_witness :
    resolverStep (exampleOpts "" "") (constLookup ["one.one.one.one.."]) "1.1.1.1" ((), []) none
      = ((), [Event.lookupAddr none "1.1.1.1" (LookupResult.ok ["one.one.one.one.."]),
              Event.println "1.1.1.1 \t one.one.one.one\n"]) :=
  (doWork_name_trimmed LoopVar.perIteration (exampleOpts "" "")
      (constLookup ["one.one.one.one.."])).1
    "1.1.1.1" () () [] none ["one.one.one.one.."] rfl

/-- C4: for every work item and every resolver set the worker calls
`LookupAddr` exactly once per resolver, in the order of the set, each call in
the world the call before it left, whatever the calls return; after a call,
failed or successful, the lines of its result are written and then the next
resolver is queried; so the trace of the item is one block per resolver, each
made of the lookup with what `LookupAddr` returned and the lines of that
result.  The whole worker does this item after item with the resolvers of
getResolvers. -/
theorem doWork_queries_all {W : Type} (lv : LoopVar) (opts : Opts) (LookupAddr : Lookup W) :
    (∀ (r : Handle) (rest : List Handle) (ip : String) (w : W) (out : List Event),
      itemStep opts LookupAddr (r :: rest) (w, out) ip
        = itemStep opts LookupAddr rest
            ((LookupAddr w r ip).1,
              out ++ Event.lookupAddr r ip (LookupAddr w r ip).2
                       :: (linesOf opts ip (LookupAddr w r ip).2).map Event.println) ip) ∧
    (∀ (r r' : Handle) (rest : List Handle) (ip : String) (w w1 : W) (out : List Event)
        (addr : List String), LookupAddr w r ip = (w1, LookupResult.ok addr) →
      itemStep opts LookupAddr (r :: r' :: rest) (w, out) ip
        = itemStep opts LookupAddr rest
            ((LookupAddr w1 r' ip).1,
              out ++ (Event.lookupAddr r ip (LookupResult.ok addr)
                        :: addr.map (fun a => Event.println (outputLine opts ip a)))
                  ++ (Event.lookupAddr r' ip (LookupAddr w1 r' ip).2
                        :: (linesOf opts ip (LookupAddr w1 r' ip).2).map Event.println)) ip) ∧
    (∀ (resolvers : List Handle) (ip : String) (st : W × List Event),
      itemStep opts LookupAddr resolvers st ip
        = (worldAfter LookupAddr ip st.1 resolvers,
            st.2 ++ (resolvers.zip (lookupAll LookupAddr ip st.1 resolvers)).flatMap
              (fun p => Event.lookupAddr p.1 ip p.2
                          :: (linesOf opts ip p.2).map Event.println)) ∧
      (lookupAll LookupAddr ip st.1 resolvers).length = resolvers.length ∧
      lookups (itemStep opts LookupAddr resolvers st ip).2
        = lookups st.2 ++ resolvers.map (fun r => (r, ip))) ∧
    (∀ (work : List String) (w : W),
      doWork lv opts LookupAddr work w
        = (workWorld LookupAddr (getResolvers lv opts) w work,
            workTrace opts LookupAddr (getResolvers lv opts) w work) ∧
      lookups (doWork lv opts LookupAddr work w).2
        = work.flatMap (fun ip => (getResolvers lv opts).map (fun r => (r, ip))) ∧
      (lookups (doWork lv opts LookupAddr work w).2).length
        = work.length * (getResolvers lv opts).length) := by
  refine ⟨?_, ?_, ?_, ?_⟩
  · intro r rest ip w out
    exact itemStep_cons opts LookupAddr ip r rest w out
  · intro r r' rest ip w w1 out addr hok
    rw [itemStep_cons, itemStep_cons, hok]
    simp only [linesOf, List.map_map, List.append_assoc, List.cons_append]
    rfl
  · intro resolvers ip st
    obtain ⟨rs, _, hl, _, _⟩ := itemStep_fst_snd opts LookupAddr ip resolvers st
    exact ⟨itemStep_eq opts LookupAddr ip resolvers st,
      lookupAll_length LookupAddr ip st.1 resolvers, hl⟩
  · intro work w
    have h := (foldl_itemStep_trace opts LookupAddr (getResolvers lv opts) work (w, [])).1
    have h' : lookups (doWork lv opts LookupAddr work w).2
        = work.flatMap (fun ip => (getResolvers lv opts).map (fun r => (r, ip))) := by
      simpa [doWork, lookups] using h
    refine ⟨?_, h', by rw [h', flatMap_pairs_length]⟩
    simp [doWork, foldl_itemStep_eq]

/-- C4 with two resolvers, the first of which answers and the second of which
times out: after the successful lookup and its line the second resolver is
queried, in the world the first lookup left. -/
theorem doWork_queries_all_witness :
    itemStep (exampleOpts "" "") (flakyLookup ["a.example."]) [none, singleResolver]
        (1, []) "5.5.5.5"
      = (3, [Event.lookupAddr none "5.5.5.5" (LookupResult.ok ["a.example."]),
             Event.println "5.5.5.5 \t a.example\n",
             Event.lookupAddr singleResolver "5.5.5.5" (LookupResult.error "timeout")]) :=
  (doWork_queries_all LoopVar.perIteration (exampleOpts "" "")
      (flakyLookup ["a.example."])).2.1
    none singleResolver [] "5.5.5.5" 1 2 [] ["a.example."] rfl

/-- C9: a lookup that returns an error writes nothing and the loop over the
resolvers goes on with the next resolver of the same item; for every item
all resolvers are answered, and what is written for the item is the
concatenation, in resolver order, of the lines of the successful lookups
(nothing when all fail); for the whole worker every item gets one answer per
resolver and the output is, lookup after lookup, the lines of the successful
ones. -/
theorem doWork_errors_skipped {W : Type} (lv : LoopVar) (opts : Opts) (LookupAddr : Lookup W) :
    (∀ (ip : String) (w w' : W) (out : List Event) (r : Handle) (rest : List Handle)
        (e : String), LookupAddr w r ip = (w', LookupResult.error e) →
      printed (resolverStep opts LookupAddr ip (w, out) r).2 = printed out ∧
      itemStep opts LookupAddr (r :: rest) (w, out) ip
        = itemStep opts LookupAddr rest
            (w', out ++ [Event.lookupAddr r ip (LookupResult.error e)]) ip) ∧
    (∀ (resolvers : List Handle) (ip : String) (st : W × List Event),
      ∃ rs : List LookupResult, rs.length = resolvers.length ∧
        answers (itemStep opts LookupAddr resolvers st ip).2
          = answers st.2 ++ rs.map (fun res => (ip, res)) ∧
        printed (itemStep opts LookupAddr resolvers st ip).2
          = printed st.2 ++ rs.flatMap (linesOf opts ip) ∧
        ((∀ res ∈ rs, ∃ e, res = LookupResult.error e) →
          printed (itemStep opts LookupAddr resolvers st ip).2 = printed st.2)) ∧
    (∀ (work : List String) (w : W),
      (answers (doWork lv opts LookupAddr work w).2).map Prod.fst
        = work.flatMap (fun ip => List.replicate (getResolvers lv opts).length ip) ∧
      printed (doWork lv opts LookupAddr work w).2
        = (answers (doWork lv opts LookupAddr work w).2).flatMap
            (fun a => linesOf opts a.1 a.2)) := by
  refine ⟨?_, ?_, ?_⟩
  · intro ip w w' out r rest e he
    have hstep := resolverStep_error opts LookupAddr ip w w' out r e he
    refine ⟨?_, ?_⟩
    · rw [hstep, printed_append]
      simp [printed]
    · simp only [itemStep, List.foldl_cons]
      rw [hstep]
  · intro resolvers ip st
    obtain ⟨rs, hlen, _, ha, hp⟩ := itemStep_fst_snd opts LookupAddr ip resolvers st
    refine ⟨rs, hlen, ha, hp, ?_⟩
    intro hall
    rw [hp, flatMap_linesOf_errors opts ip rs hall, List.append_nil]
  · intro work w
    obtain ⟨_, h2, h3⟩ := foldl_itemStep_trace opts LookupAddr (getResolvers lv opts) work (w, [])
    refine ⟨?_, ?_⟩
    · simpa [doWork, answers] using h2
    · exact h3 rfl

/-- C9 with two resolvers of which the first times out and the second
answers: the failed lookup is followed by the lookup of the second resolver,
and the items 5.5.5.5 and 6.6.6.6 each give the one line of the successful
lookup. -/
theorem doWork_errors_skipped_witness :
    itemStep (exampleOpts "" "1.1.1.1,8.8.8.8") (flakyLookup ["a.example."])
        [none, singleResolver] (0, []) "5.5.5.5"
      = itemStep (exampleOpts "" "1.1.1.1,8.8.8.8") (flakyLookup ["a.example."])
          [singleResolver]
          (1, [Event.lookupAddr none "5.5.5.5" (LookupResult.error "timeout")]) "5.5.5.5" ∧
    printed (doWork LoopVar.perIteration (exampleOpts "" "1.1.1.1,8.8.8.8")
        (flakyLookup ["a.example."]) ["5.5.5.5", "6.6.6.6"] 0).2
      = ["5.5.5.5 \t a.example\n", "6.6.6.6 \t a.example\n"] :=
  ⟨((doWork_errors_skipped LoopVar.perIteration (exampleOpts "" "1.1.1.1,8.8.8.8")
        (flakyLookup ["a.example."])).1 "5.5.5.5" 0 1 [] none [singleResolver] "timeout" rfl).2,
   (((doWork_errors_skipped LoopVar.perIteration (exampleOpts "" "1.1.1.1,8.8.8.8")
        (flakyLookup ["a.example."])).2.2 ["5.5.5.5", "6.6.6.6"] 0).2).trans (by decide)⟩

/-! ## Dispatch of the input lines -/

theorem countP_set_same {α : Type} (p : α → Bool) (l : List α) (j : Nat) (a b : α)
    (hj : l[j]? = some a) (hab : p a = p b) : (l.set j b).countP p = l.countP p := by
  induction l generalizing j with
  | nil => simp at hj
  | cons x xs ih =>
    cases j with
    | zero =>
      simp at hj
      subst hj
      simp [List.countP_cons, hab]
    | succ j =>
      simp at hj
      simp [List.countP_cons, ih j hj]

theorem countP_set_drop {α : Type} (p : α → Bool) (l : List α) (j : Nat) (a b : α)
    (hj : l[j]? = some a) (ha : p a = true) (hb : p b = false) :
    (l.set j b).countP p + 1 = l.countP p := by
  induction l generalizing j with
  | nil => simp at hj
  | cons x xs ih =>
    cases j with
    | zero =>
      simp at hj
      subst hj
      simp [List.countP_cons, ha, hb]
    | succ j =>
      simp at hj
      have := ih j hj
      simp only [List.set_cons_succ, List.countP_cons]
      omega

theorem get?_lt {α : Type} (l : List α) (j : Nat) (a : α) (hj : l[j]? = some a) :
    j < l.length := by
  by_contra h
  rw [List.getElem?_eq_none (Nat.le_of_not_lt h)] at hj
  exact Option.noConfusion hj

theorem mem_set_cases {α : Type} (l : List α) (j : Nat) (b x : α) (hx : x ∈ l.set j b) :
    x ∈ l ∨ x = b := by
  rcases List.mem_or_eq_of_mem_set hx with h | h
  · exact Or.inl h
  · exact Or.inr h

theorem scanned_nil : scanned [] = [] := rfl

theorem scanned_cons_fit (line : String) (rest : List String)
    (h : line.utf8ByteSize < MaxScanTokenSize) :
    scanned (line :: rest) = dropCR line :: scanned rest := by
  simp [scanned, List.takeWhile_cons, h]

theorem scanned_cons_long (line : String) (rest : List String)
    (h : ¬ line.utf8ByteSize < MaxScanTokenSize) : scanned (line :: rest) = [] := by
  simp [scanned, List.takeWhile_cons, h]

theorem scanned_of_fit (input : List String)
    (h : ∀ line ∈ input, line.utf8ByteSize < MaxScanTokenSize) :
    scanned input = input.map dropCR := by
  induction input with
  | nil => rfl
  | cons line rest ih =>
    rw [scanned_cons_fit line rest (h line (List.mem_cons_self _ _)),
      ih (fun l hl => h l (List.mem_cons_of_mem _ hl)), List.map_cons]

theorem longLine_size : longLine.utf8ByteSize = 65536 := by
  have key : ∀ n : Nat, String.utf8ByteSize.go (List.replicate n 'a') = n := by
    intro n
    induction n with
    | zero => rfl
    | succ n ih =>
      rw [List.replicate_succ]
      unfold String.utf8ByteSize.go
      show String.utf8ByteSize.go _ + 1 = _
      rw [ih]
  exact key 65536

theorem Sys.init_inv (numWorkers : Int) (input : List String) :
    Sys.Inv numWorkers input (Sys.init input) where
  log := by simp [Sys.init, Reader.pending]
  wg := by simp [Sys.init]
  idx := by simp [Sys.init]
  closed := by simp [Sys.init]
  spawning := by
    intro i h
    simp [Sys.init] at h ⊢
    exact h
  spawned := by simp [Sys.init]
  bound := by simp [Sys.init]
  exited := by simp [Sys.init]

theorem Sys.step_inv (numWorkers : Int) (input : List String) (s s' : Sys) (a : Action)
    (hinv : Sys.Inv numWorkers input s) (h : s.step numWorkers a = some s') :
    Sys.Inv numWorkers input s' := by
  obtain ⟨main, reader, workers, wg, received⟩ := s
  obtain ⟨hlog, hwg, hidx, hclosed, hspawning, hspawned, hbound, hexited⟩ := hinv
  simp only at hlog hwg hidx hclosed hspawning hspawned hbound hexited
  cases a with
  | main =>
    cases main with
    | spawning i =>
      have hlen : workers.length = i := hspawning i rfl
      by_cases hi : (i : Int) < numWorkers
      · simp only [Sys.step, if_pos hi, Option.some.injEq] at h
        subst h
        refine ⟨hlog, ?_, ?_, ?_, ?_, ?_, ?_, ?_⟩
        · simp only [List.countP_append, hwg]
          simp
        · intro e he
          have := hidx e he
          simp only [List.length_append, List.length_singleton]
          omega
        · intro hmem
          rcases List.mem_append.1 hmem with hm | hm
          · exact hclosed hm
          · simp at hm
        · intro i' hi'
          simp only [MainPc.spawning.injEq] at hi'
          simp only [List.length_append, List.length_singleton]
          omega
        · intro hne
          simp only [List.length_append, List.length_singleton, hlen] at hne
          exact absurd rfl hne
        · intro j hj
          simp only [List.length_append, List.length_singleton] at hj
          omega
        · intro hex
          simp at hex
      · simp only [Sys.step, if_neg hi, Option.some.injEq] at h
        subst h
        refine ⟨hlog, hwg, hidx, hclosed, ?_, ?_, hbound, ?_⟩
        · intro i' hi'
          simp at hi'
        · intro _
          simp only
          omega
        · intro hex
          simp at hex
    | waiting =>
      by_cases hz : wg = 0
      · simp only [Sys.step, if_pos hz, Option.some.injEq] at h
        subst h
        refine ⟨hlog, hwg, hidx, hclosed, ?_, ?_, hbound, ?_⟩
        · intro i' hi'
          simp at hi'
        · intro _
          exact hspawned (by simp)
        · intro _
          exact hz
      · simp [Sys.step, hz] at h
    | exited => simp [Sys.step] at h
  | reader =>
    by_cases hm : main = MainPc.exited
    · simp [Sys.step, hm] at h
    · cases reader with
      | scanning rest =>
        have hnodone : WorkerPc.done ∉ workers := fun hd => by
          have := hclosed hd
          simp at this
        cases rest with
        | nil =>
          simp only [Sys.step, if_neg hm, Option.some.injEq] at h
          subst h
          refine ⟨?_, hwg, hidx, fun _ => rfl, hspawning, hspawned, hbound, ?_⟩
          · simpa [Reader.pending, scanned_nil] using hlog
          · intro hex
            exact absurd hex hm
        | cons line rest =>
          by_cases hfit : line.utf8ByteSize < MaxScanTokenSize
          · simp only [Sys.step, if_neg hm, if_pos hfit, Option.some.injEq] at h
            subst h
            refine ⟨?_, hwg, hidx, fun hd => absurd hd hnodone, hspawning, hspawned, hbound,
              ?_⟩
            · simpa [Reader.pending, scanned_cons_fit line rest hfit] using hlog
            · intro hex
              exact absurd hex hm
          · simp only [Sys.step, if_neg hm, if_neg hfit, Option.some.injEq] at h
            subst h
            refine ⟨?_, hwg, hidx, fun _ => rfl, hspawning, hspawned, hbound, ?_⟩
            · simpa [Reader.pending, scanned_cons_long line rest hfit] using hlog
            · intro hex
              exact absurd hex hm
      | sending line rest => simp [Sys.step, hm] at h
      | closed => simp [Sys.step, hm] at h
  | handoff j =>
    by_cases hm : main = MainPc.exited
    · simp [Sys.step, hm] at h
    · simp only [Sys.step, if_neg hm] at h
      split at h
      · rename_i _ _ line rest hw
        simp only [Option.some.injEq] at h
        subst h
        have hnodone : WorkerPc.done ∉ workers := fun hd => by
          have := hclosed hd
          simp at this
        have hjlt : j < workers.length := get?_lt workers j _ hw
        refine ⟨?_, ?_, ?_, ?_, ?_, ?_, ?_, ?_⟩
        · simp only [List.map_append, List.map_cons, List.map_nil, Reader.pending,
            List.append_assoc, List.singleton_append]
          simpa [Reader.pending] using hlog
        · simp only
          rw [countP_set_same (fun p => p != WorkerPc.done) workers j WorkerPc.receiving
            (WorkerPc.busy line) hw rfl]
          exact hwg
        · intro e he
          simp only [List.length_set]
          rcases List.mem_append.1 he with he | he
          · exact hidx e he
          · simp only [List.mem_singleton] at he
            subst he
            exact hjlt
        · intro hd
          rcases mem_set_cases workers j _ _ hd with hd | hd
          · exact absurd hd hnodone
          · simp at hd
        · intro i hi
          simp only [List.length_set]
          exact hspawning i hi
        · intro hne
          simp only [List.length_set] at hne ⊢
          exact hspawned hne
        · intro k hk
          simp only [List.length_set] at hk
          exact hbound k hk
        · intro hex
          exact absurd hex hm
      · simp at h
  | worker j =>
    by_cases hm : main = MainPc.exited
    · simp [Sys.step, hm] at h
    · simp only [Sys.step, if_neg hm] at h
      split at h
      · rename_i ip hw
        simp only [Option.some.injEq] at h
        subst h
        refine ⟨hlog, ?_, ?_, ?_, ?_, ?_, ?_, ?_⟩
        · simp only
          rw [countP_set_same (fun p => p != WorkerPc.done) workers j (WorkerPc.busy ip)
            WorkerPc.receiving hw rfl]
          exact hwg
        · intro e he
          simp only [List.length_set]
          exact hidx e he
        · intro hd
          rcases mem_set_cases workers j _ _ hd with hd | hd
          · exact hclosed hd
          · simp at hd
        · intro i hi
          simp only [List.length_set]
          exact hspawning i hi
        · intro hne
          simp only [List.length_set] at hne ⊢
          exact hspawned hne
        · intro k hk
          simp only [List.length_set] at hk
          exact hbound k hk
        · intro hex
          exact absurd hex hm
      · rename_i hw
        by_cases hc : reader = Reader.closed
        · simp only [if_pos hc, Option.some.injEq] at h
          subst h
          have hcnt := countP_set_drop (fun p => p != WorkerPc.done) workers j
            WorkerPc.receiving WorkerPc.done hw (by decide) (by decide)
          refine ⟨hlog, ?_, ?_, fun _ => hc, ?_, ?_, ?_, ?_⟩
          · simp only
            omega
          · intro e he
            simp only [List.length_set]
            exact hidx e he
          · intro i hi
            simp only [List.length_set]
            exact hspawning i hi
          · intro hne
            simp only [List.length_set] at hne ⊢
            exact hspawned hne
          · intro k hk
            simp only [List.length_set] at hk
            exact hbound k hk
          · intro hex
            exact absurd hex hm
        · simp [hc] at h
      · simp at h

theorem Sys.run_inv (numWorkers : Int) (input : List String) (schedule : List Action)
    (s s' : Sys) (hinv : Sys.Inv numWorkers input s)
    (h : Sys.run numWorkers s schedule = some s') : Sys.Inv numWorkers input s' := by
  induction schedule generalizing s with
  | nil =>
    simp only [Sys.run, Option.some.injEq] at h
    exact h ▸ hinv
  | cons a rest ih =>
    simp only [Sys.run] at h
    cases hstep : s.step numWorkers a with
    | none => simp [hstep] at h
    | some s1 =>
      rw [hstep] at h
      exact ih s1 (Sys.step_inv numWorkers input s s1 a hinv hstep) h

theorem countP_eq_zero_all_done (workers : List WorkerPc)
    (h : workers.countP (fun p => p != WorkerPc.done) = 0) (p : WorkerPc) (hp : p ∈ workers) :
    p = WorkerPc.done := by
  have := (List.countP_eq_zero.1 h) p hp
  simpa using this

theorem Sys.run_append (numWorkers : Int) (s : Sys) (a b : List Action) :
    Sys.run numWorkers s (a ++ b)
      = (Sys.run numWorkers s a).bind (fun s' => Sys.run numWorkers s' b) := by
  induction a generalizing s with
  | nil => rfl
  | cons x xs ih =>
    simp only [List.cons_append, Sys.run]
    cases s.step numWorkers x with
    | none => rfl
    | some s1 => exact ih s1

theorem Sys.run_cons_of_step (numWorkers : Int) (s s1 : Sys) (a : Action) (rest : List Action)
    (h : s.step numWorkers a = some s1) :
    Sys.run numWorkers s (a :: rest) = Sys.run numWorkers s1 rest := by
  simp only [Sys.run, h]

/-- In every run that reaches the end of main with at least one worker
requested, the values received are, in order, the tokens of the scanner. -/
theorem dispatch_scanned (input : List String) (numWorkers : Int)
    (schedule : List Action) (s : Sys) (hn : 1 ≤ numWorkers)
    (hrun : Sys.run numWorkers (Sys.init input) schedule = some s)
    (hexit : s.main = MainPc.exited) :
    s.received.map Prod.snd = scanned input ∧
    (∀ e ∈ s.received, (e.1 : Int) < numWorkers) := by
  have hinv := Sys.run_inv numWorkers input schedule (Sys.init input) s
    (Sys.init_inv numWorkers input) hrun
  have hwg0 : s.wg = 0 := hinv.exited hexit
  have hcount : s.workers.countP (fun p => p != WorkerPc.done) = 0 := by
    have := hinv.wg
    omega
  have hlen : numWorkers ≤ s.workers.length := hinv.spawned (by rw [hexit]; simp)
  have hdone : WorkerPc.done ∈ s.workers := by
    cases hws : s.workers with
    | nil =>
      rw [hws] at hlen
      simp at hlen
      omega
    | cons p ps =>
      have hp : p ∈ s.workers := by rw [hws]; exact List.mem_cons_self _ _
      have := countP_eq_zero_all_done s.workers hcount p hp
      rw [← hws, ← this]
      exact hp
  have hclosed : s.reader = Reader.closed := hinv.closed hdone
  refine ⟨?_, ?_⟩
  · have := hinv.log
    rw [hclosed] at this
    simpa [Reader.pending] using this
  · intro e he
    exact hinv.bound e.1 (hinv.idx e he)

theorem longLine_not_fit : ¬ longLine.utf8ByteSize < MaxScanTokenSize := by
  rw [longLine_size]
  decide

/-- The run of one worker on an input whose first line is too long for the
scanner. -/
theorem run_longLine : (Sys.run 1 (Sys.init [longLine, "8.8.8.8"])
        [Action.main, Action.main, Action.reader, Action.worker 0, Action.main]
      = some { main := MainPc.exited, reader := Reader.closed, workers := [WorkerPc.done],
               wg := 0, received := [] }) := by
  have s1 : Sys.step 1 (Sys.init [longLine, "8.8.8.8"]) Action.main
      = some { main := MainPc.spawning 1, reader := Reader.scanning [longLine, "8.8.8.8"],
               workers := [WorkerPc.receiving], wg := 1, received := [] } := by
    simp [Sys.step, Sys.init]
  have s2 : Sys.step 1
      { main := MainPc.spawning 1, reader := Reader.scanning [longLine, "8.8.8.8"],
        workers := [WorkerPc.receiving], wg := 1, received := [] } Action.main
      = some { main := MainPc.waiting, reader := Reader.scanning [longLine, "8.8.8.8"],
               workers := [WorkerPc.receiving], wg := 1, received := [] } := by
    simp [Sys.step]
  have s3 : Sys.step 1
      { main := MainPc.waiting, reader := Reader.scanning [longLine, "8.8.8.8"],
        workers := [WorkerPc.receiving], wg := 1, received := [] } Action.reader
      = some { main := MainPc.waiting, reader := Reader.closed,
               workers := [WorkerPc.receiving], wg := 1, received := [] } := by
    simp only [Sys.step, reduceCtorEq, if_false, if_neg longLine_not_fit]
  have s4 : Sys.step 1
      { main := MainPc.waiting, reader := Reader.closed,
        workers := [WorkerPc.receiving], wg := 1, received := [] } (Action.worker 0)
      = some { main := MainPc.waiting, reader := Reader.closed,
               workers := [WorkerPc.done], wg := 0, received := [] } := by
    simp [Sys.step]
  have s5 : Sys.step 1
      { main := MainPc.waiting, reader := Reader.closed,
        workers := [WorkerPc.done], wg := 0, received := [] } Action.main
      = some { main := MainPc.exited, reader := Reader.closed,
               workers := [WorkerPc.done], wg := 0, received := [] } := by
    simp [Sys.step]
  rw [Sys.run_cons_of_step _ _ _ _ _ s1, Sys.run_cons_of_step _ _ _ _ _ s2,
    Sys.run_cons_of_step _ _ _ _ _ s3, Sys.run_cons_of_step _ _ _ _ _ s4,
    Sys.run_cons_of_step _ _ _ _ _ s5]
  rfl

/-- C10 as stated fails.  With a thread count of 0 main starts no worker,
`wg.Wait()` returns at once and the process ends while the input line 8.8.8.8
has been received by no worker.  With one worker and a first input line of
65536 bytes the scanner stops at that line, the reader closes the channel and
the process ends while neither that line nor the line 8.8.8.8 after it has
been received. -/
theorem dispatch_counterexample :
    (Sys.run 0 (Sys.init ["8.8.8.8"]) [Action.main, Action.main]
      = some { main := MainPc.exited, reader := Reader.scanning ["8.8.8.8"], workers := [],
               wg := 0, received := [] } ∧
     List.map Prod.snd ([] : List (Nat × String)) ≠ ["8.8.8.8"]) ∧
    (Sys.run 1 (Sys.init [longLine, "8.8.8.8"])
        [Action.main, Action.main, Action.reader, Action.worker 0, Action.main]
      = some { main := MainPc.exited, reader := Reader.closed, workers := [WorkerPc.done],
               wg := 0, received := [] } ∧
     List.map Prod.snd ([] : List (Nat × String)) ≠ [longLine, "8.8.8.8"].map dropCR) := by
  exact ⟨by decide, run_longLine, by simp⟩

/-- C10, amended: for every input, the sequence of lines read from standard
input up to its end or a read error, in which every line is shorter than
64 KiB (so that it fits the buffer of the scanner with its newline), and
every thread count of at least 1, in every run of the
process that reaches the end of main, the values received from the work
channel are, in order, exactly the input lines, each as the scanner returns
it (without a trailing carriage return): every line has been received once,
by one worker (one of the `numWorkers` started), none is lost and none is
received twice. -/
theorem dispatch_exactly_once (input : List String) (numWorkers : Int)
    (schedule : List Action) (s : Sys) (hn : 1 ≤ numWorkers)
    (hfit : ∀ line ∈ input, line.utf8ByteSize < MaxScanTokenSize)
    (hrun : Sys.run numWorkers (Sys.init input) schedule = some s)
    (hexit : s.main = MainPc.exited) :
    s.received.map Prod.snd = input.map dropCR ∧
    s.received.length = input.length ∧
    (∀ e ∈ s.received, (e.1 : Int) < numWorkers) ∧
    (∀ (k : Nat) (line : String), input[k]? = some line →
      ∃! j : Nat, s.received[k]? = some (j, dropCR line)) := by
  obtain ⟨hscan, hidx⟩ := dispatch_scanned input numWorkers schedule s hn hrun hexit
  have hlog : s.received.map Prod.snd = input.map dropCR := by
    rw [hscan, scanned_of_fit input hfit]
  refine ⟨hlog, ?_, hidx, ?_⟩
  · have := congrArg List.length hlog
    simpa using this
  · intro k line hk
    have hk' : (input.map dropCR)[k]? = some (dropCR line) := by
      rw [List.getElem?_map, hk]
      rfl
    rw [← hlog, List.getElem?_map] at hk'
    cases hr : s.received[k]? with
    | none => simp [hr] at hk'
    | some e =>
      obtain ⟨j, l⟩ := e
      simp only [hr, Option.map_some', Option.some.injEq] at hk'
      subst hk'
      refine ⟨j, rfl, ?_⟩
      intro j' hj'
      simp only [Option.some.injEq, Prod.mk.injEq] at hj'
      exact hj'.1.symm

/-- C10, amended, with two workers and the input lines 8.8.8.8 (ending in a
carriage return) and 1.1.1.1: in the run where each worker takes one line,
the values received are the two lines without the carriage return. -/
theorem dispatch_exactly_once_witness :
    Sys.run 2 (Sys.init ["8.8.8.8\r", "1.1.1.1"])
        [Action.main, Action.main, Action.main, Action.reader, Action.handoff 0,
         Action.reader, Action.handoff 1, Action.reader, Action.worker 0, Action.worker 0,
         Action.worker 1, Action.worker 1, Action.main]
      = some { main := MainPc.exited, reader := Reader.closed,
               workers := [WorkerPc.done, WorkerPc.done], wg := 0,
               received := [(0, "8.8.8.8"), (1, "1.1.1.1")] } ∧
    List.map Prod.snd [((0 : Nat), "8.8.8.8"), (1, "1.1.1.1")]
      = ["8.8.8.8\r", "1.1.1.1"].map dropCR :=
  ⟨by decide,
   (dispatch_exactly_once ["8.8.8.8\r", "1.1.1.1"] 2
      [Action.main, Action.main, Action.main, Action.reader, Action.handoff 0,
       Action.reader, Action.handoff 1, Action.reader, Action.worker 0, Action.worker 0,
       Action.worker 1, Action.worker 1, Action.main]
      { main := MainPc.exited, reader := Reader.closed,
        workers := [WorkerPc.done, WorkerPc.done], wg := 0,
        received := [(0, "8.8.8.8"), (1, "1.1.1.1")] }
      (by decide) (by decide) (by decide) rfl).1⟩

/-! ## Existence of complete runs -/

theorem run_spawn (n : Nat) (k i : Nat) (hk : i + k ≤ n) (rd : Reader) (ws : List WorkerPc)
    (wg : Int) (rc : List (Nat × String)) :
    Sys.run n { main := MainPc.spawning i, reader := rd, workers := ws, wg := wg,
                received := rc } (List.replicate k Action.main)
      = some { main := MainPc.spawning (i + k), reader := rd,
               workers := ws ++ List.replicate k WorkerPc.receiving, wg := wg + k,
               received := rc } := by
  induction k generalizing i ws wg with
  | zero => simp [Sys.run]
  | succ k ih =>
    have hi : (i : Int) < (n : Int) := by omega
    have hstep : Sys.step n
        { main := MainPc.spawning i, reader := rd, workers := ws, wg := wg, received := rc }
        Action.main
        = some { main := MainPc.spawning (i + 1), reader := rd,
                 workers := ws ++ [WorkerPc.receiving], wg := wg + 1, received := rc } := by
      simp only [Sys.step, if_pos hi]
    rw [List.replicate_succ, Sys.run_cons_of_step _ _ _ _ _ hstep, ih (i + 1) (by omega)]
    simp only [Option.some.injEq, Sys.mk.injEq, List.append_assoc, List.singleton_append,
      true_and, and_true]
    refine ⟨by congr 1; omega, ?_, ?_⟩
    · rw [List.replicate_succ]
    · push_cast
      omega

theorem run_lines (numWorkers : Int) (input : List String) (tail : List WorkerPc) (wg : Int)
    (rc : List (Nat × String)) :
    Sys.run numWorkers { main := MainPc.waiting, reader := Reader.scanning input,
                         workers := WorkerPc.receiving :: tail, wg := wg, received := rc }
        ((scanned input).flatMap (fun _ => [Action.reader, Action.handoff 0, Action.worker 0])
          ++ [Action.reader])
      = some { main := MainPc.waiting, reader := Reader.closed,
               workers := WorkerPc.receiving :: tail, wg := wg,
               received := rc ++ (scanned input).map (fun text => (0, text)) } := by
  induction input generalizing rc with
  | nil => simp [scanned_nil, Sys.run, Sys.step]
  | cons line rest ih =>
    by_cases hfit : line.utf8ByteSize < MaxScanTokenSize
    · rw [scanned_cons_fit line rest hfit, List.flatMap_cons]
      simp only [List.cons_append, List.nil_append]
      have s1 : Sys.step numWorkers
          { main := MainPc.waiting, reader := Reader.scanning (line :: rest),
            workers := WorkerPc.receiving :: tail, wg := wg, received := rc } Action.reader
          = some { main := MainPc.waiting, reader := Reader.sending (dropCR line) rest,
                   workers := WorkerPc.receiving :: tail, wg := wg, received := rc } := by
        simp [Sys.step, hfit]
      have s2 : Sys.step numWorkers
          { main := MainPc.waiting, reader := Reader.sending (dropCR line) rest,
            workers := WorkerPc.receiving :: tail, wg := wg, received := rc }
          (Action.handoff 0)
          = some { main := MainPc.waiting, reader := Reader.scanning rest,
                   workers := WorkerPc.busy (dropCR line) :: tail, wg := wg,
                   received := rc ++ [(0, dropCR line)] } := by simp [Sys.step]
      have s3 : Sys.step numWorkers
          { main := MainPc.waiting, reader := Reader.scanning rest,
            workers := WorkerPc.busy (dropCR line) :: tail, wg := wg,
            received := rc ++ [(0, dropCR line)] } (Action.worker 0)
          = some { main := MainPc.waiting, reader := Reader.scanning rest,
                   workers := WorkerPc.receiving :: tail, wg := wg,
                   received := rc ++ [(0, dropCR line)] } := by simp [Sys.step]
      rw [Sys.run_cons_of_step _ _ _ _ _ s1, Sys.run_cons_of_step _ _ _ _ _ s2,
        Sys.run_cons_of_step _ _ _ _ _ s3, ih]
      simp
    · rw [scanned_cons_long line rest hfit]
      simp [Sys.run, Sys.step, hfit]

theorem run_return (numWorkers : Int) (m k : Nat) (rc : List (Nat × String)) :
    Sys.run numWorkers { main := MainPc.waiting, reader := Reader.closed,
                         workers := List.replicate k WorkerPc.done
                                      ++ List.replicate m WorkerPc.receiving,
                         wg := m, received := rc }
        ((List.range' k m).map Action.worker)
      = some { main := MainPc.waiting, reader := Reader.closed,
               workers := List.replicate (k + m) WorkerPc.done, wg := 0, received := rc } := by
  induction m generalizing k with
  | zero => simp [Sys.run]
  | succ m ih =>
    have hget : (List.replicate k WorkerPc.done
        ++ List.replicate (m + 1) WorkerPc.receiving)[k]? = some WorkerPc.receiving := by
      rw [List.getElem?_append_right (by simp)]
      simp [List.replicate_succ]
    have hset : (List.replicate k WorkerPc.done
        ++ List.replicate (m + 1) WorkerPc.receiving).set k WorkerPc.done
          = List.replicate (k + 1) WorkerPc.done ++ List.replicate m WorkerPc.receiving := by
      rw [List.set_append_right _ _ (by simp)]
      simp only [List.length_replicate, Nat.sub_self]
      rw [List.replicate_succ, List.set_cons_zero, List.replicate_succ', List.append_assoc,
        List.singleton_append]
    have hstep : Sys.step numWorkers
        { main := MainPc.waiting, reader := Reader.closed,
          workers := List.replicate k WorkerPc.done
                       ++ List.replicate (m + 1) WorkerPc.receiving,
          wg := ((m + 1 : Nat) : Int), received := rc } (Action.worker k)
        = some { main := MainPc.waiting, reader := Reader.closed,
                 workers := List.replicate (k + 1) WorkerPc.done
                              ++ List.replicate m WorkerPc.receiving,
                 wg := (m : Int), received := rc } := by
      simp only [Sys.step, reduceCtorEq, if_false, hget, if_true, hset]
      simp
    rw [List.range'_succ, List.map_cons, Sys.run_cons_of_step _ _ _ _ _ hstep, ih (k + 1)]
    simp only [Option.some.injEq, Sys.mk.injEq, true_and, and_true]
    congr 1
    omega

/-- For every input and every number of workers of at least 1 there is a run
of the process that reaches the end of main. -/
theorem dispatch_can_complete (n : Nat) (hn : 1 ≤ n) (input : List String) :
    ∃ s : Sys, Sys.run n (Sys.init input) (fullSchedule n input) = some s ∧
      s.main = MainPc.exited := by
  obtain ⟨m, rfl⟩ : ∃ m, n = m + 1 := ⟨n - 1, by omega⟩
  have h1 := run_spawn (m + 1) (m + 1) 0 (by omega) (Reader.scanning input) [] 0 []
  have h2 : Sys.run ((m + 1 : Nat) : Int)
      { main := MainPc.spawning (0 + (m + 1)), reader := Reader.scanning input,
        workers := [] ++ List.replicate (m + 1) WorkerPc.receiving,
        wg := 0 + ((m + 1 : Nat) : Int), received := [] } [Action.main]
      = some { main := MainPc.waiting, reader := Reader.scanning input,
               workers := WorkerPc.receiving :: List.replicate m WorkerPc.receiving,
               wg := ((m + 1 : Nat) : Int), received := [] } := by
    simp [Sys.run, Sys.step, List.replicate_succ]
  have h3 := run_lines ((m + 1 : Nat) : Int) input (List.replicate m WorkerPc.receiving)
    ((m + 1 : Nat) : Int) []
  have h5 := run_return ((m + 1 : Nat) : Int) (m + 1) 0
    ([] ++ (scanned input).map (fun text => (0, text)))
  have h6 : Sys.run ((m + 1 : Nat) : Int)
      { main := MainPc.waiting, reader := Reader.closed,
        workers := List.replicate (0 + (m + 1)) WorkerPc.done, wg := 0,
        received := [] ++ (scanned input).map (fun text => (0, text)) } [Action.main]
      = some { main := MainPc.exited, reader := Reader.closed,
               workers := List.replicate (0 + (m + 1)) WorkerPc.done, wg := 0,
               received := [] ++ (scanned input).map (fun text => (0, text)) } := by
    simp [Sys.run, Sys.step]
  have h5' : Sys.run ((m + 1 : Nat) : Int)
      { main := MainPc.waiting, reader := Reader.closed,
        workers := WorkerPc.receiving :: List.replicate m WorkerPc.receiving,
        wg := ((m + 1 : Nat) : Int),
        received := [] ++ (scanned input).map (fun text => (0, text)) }
      ((List.range' 0 (m + 1)).map Action.worker)
      = some { main := MainPc.waiting, reader := Reader.closed,
               workers := List.replicate (0 + (m + 1)) WorkerPc.done, wg := 0,
               received := [] ++ (scanned input).map (fun text => (0, text)) } := by
    simpa [List.replicate_succ] using h5
  refine ⟨{ main := MainPc.exited, reader := Reader.closed,
            workers := List.replicate (0 + (m + 1)) WorkerPc.done, wg := 0,
            received := [] ++ (scanned input).map (fun text => (0, text)) }, ?_, ?_⟩
  · unfold fullSchedule Sys.init
    rw [Sys.run_append, h1, Option.some_bind, Sys.run_append, h2, Option.some_bind,
      Sys.run_append, h3, Option.some_bind, Sys.run_append, h5', Option.some_bind, h6]
  · rfl

end Hakrevdns
